import Mathlib

/-!
Expression AST of `utils/ast/ast.go` and its textual rendering.

A shallow embedding of the Go package `ast`: the nine node variants behind the
`Expr` interface, their `String()` and `Args()` methods, and the parts of the
Go standard library (`time.Time.UTC`, `time.Time.Format`) that the rendering of
a `TimeLiteral` goes through.

Conventions of the embedding.

* In the tree model a Go interface value of type `Expr` is either `nil` or a
  pointer to a live node; it is modelled as `Option Expr` (`none` is `nil`).
  An interface value can also hold a nil pointer of one of the nine struct
  types; the type `Value` further down has these values as well, and
  `callString` renders over them, with a panic among its outcomes.
* `fmt.Sprintf` with `%s` verbs and single spaces between them is string
  concatenation with `" "`; an operand of type `token.Token` is printed through
  its `String()` method.
* Functions of other packages and files that are not part of `ast.go`
  (`token.Token.String`, `QuoteIdent`, `Quote`, `strconv.FormatFloat`) are
  parameters of the rendering, collected in `Externals`. Where a property
  depends on what they return, it is stated over the models of them given
  further down: `FormatFloatF` after the standard library, `QuoteIdent` and
  `Quote` after section 4.3 of the specification.
-/

namespace Ast

/-! ## External collaborators -/

/-- The type `token.Token` of `go/token`: an `int`. -/
abbrev Token := Int

/-- A `float64`, given by its IEEE 754 binary64 bit pattern. -/
abbrev Float64 := Nat

/-- The functions `ast.go` calls but does not define. -/
structure Externals where
  /-- The method `token.Token.String`, used by `%s` on an operator. -/
  tokenString : Token → String
  /-- The function `QuoteIdent` of package `ast` (defined in another file). -/
  QuoteIdent : String → String
  /-- The function `Quote` of package `ast` (defined in another file). -/
  Quote : String → String
  /-- The function `strconv.FormatFloat(f, fmt, prec, bitSize)`. -/
  FormatFloat : Float64 → Char → Int → Nat → String

/-! ## The standard library's `time.Time`, as far as `TimeLiteral.String` uses it -/

/-- A `*time.Location`: a name and the rule giving, for an instant in Unix
seconds, the offset in seconds east of UTC in force at that instant. -/
structure Location where
  name : String
  lookup : Int → Int

/-- The location `time.UTC`. -/
def utcLoc : Location := ⟨"UTC", fun _ => 0⟩

/-- A `time.Time`: an instant (seconds since the Unix epoch and nanoseconds
within the second, `0 ≤ nsec < 10^9`) together with the location it is to be
displayed in. -/
structure Time where
  sec : Int
  nsec : Nat
  loc : Location

/-- The method `Time.UTC`: the same instant, with the location set to UTC. -/
def Time.UTC (t : Time) : Time := { t with loc := utcLoc }

/-- The byte `'0' + u`. -/
def digitByte (u : Nat) : Char := Char.ofNat (48 + u)

/-- The digit loop of `time.appendInt`: `for u >= 10 { buf[i] = '0' + u - q*10;
u = q }`, then the leading digit. The buffer of the original has 20 bytes; the
first argument bounds the number of rounds accordingly. -/
def utoaLoop : Nat → Nat → List Char → List Char
  | 0, u, buf => digitByte u :: buf
  | fuel + 1, u, buf =>
    if u ≥ 10 then utoaLoop fuel (u / 10) (digitByte (u - u / 10 * 10) :: buf)
    else digitByte u :: buf

/-- The function `time.appendInt(b, x, width)`: the decimal text of `x`, a
leading `-` when negative, zero-padded on the left to `width` digits. -/
def appendInt (b : List Char) (x : Int) (width : Nat) : List Char :=
  let u := x.natAbs
  let b := if x < 0 then b ++ ['-'] else b
  let ds := utoaLoop 19 u []
  b ++ List.replicate (width - ds.length) '0' ++ ds

/-- The loop `for len(b) > 0 && b[len(b)-1] == '0' { b = b[:len(b)-1] }`. -/
def trimZeros (b : List Char) : List Char :=
  (b.reverse.dropWhile (· == '0')).reverse

/-- The function `time.formatNano` for a layout element made of nines
(`.999…` with `n` nines): nothing when the nanoseconds are zero, otherwise the
first `n` of the nine digits after a `.`, with trailing zeros removed, and the
`.` removed too when no digit is left. -/
def formatNano (b : List Char) (nanosec : Nat) (n : Nat) : List Char :=
  if n = 0 ∨ nanosec = 0 then b
  else
    let b1 := appendInt (b ++ ['.']) nanosec 9
    let b2 := if n < 9 then b1.take (b1.length - 9 + n) else b1
    let b3 := trimZeros b2
    if b3.getLast? = some '.' then b3.dropLast else b3

/-- A date of the proleptic Gregorian calendar. -/
structure Civil where
  year : Int
  month : Nat
  day : Nat

/-- The function `time.isLeap`. -/
def isLeap (year : Int) : Bool :=
  year % 4 == 0 && (year % 100 != 0 || year % 400 == 0)

/-- The table `time.daysBefore`: the days of a non-leap year before each
month. -/
def daysBefore : List Nat :=
  [0, 31, 59, 90, 120, 151, 181, 212, 243, 273, 304, 334, 365]

/-- The function `time.absDate`: the year, month and day on which a given
second falls, in the proleptic Gregorian calendar. The seconds are counted from
1970-01-01 00:00:00 of the wall clock in question, and the days from
0001-01-01 (day 719162 before 1970-01-01), the start of a 400-year cycle; the
days are then cut into cycles of 400, 100, 4 and 1 years as in the original. -/
def absDate (abs : Int) : Civil :=
  let d0 := abs / 86400 + 719162
  let n400 := d0 / 146097
  let d := (d0 % 146097).toNat
  let n100 := d / 36524
  let n100 := n100 - n100 / 4
  let d := d - 36524 * n100
  let n4 := d / 1461
  let d := d - 1461 * n4
  let n1 := d / 365
  let n1 := n1 - n1 / 4
  let yday := d - 365 * n1
  let year : Int := 400 * n400 + 100 * n100 + 4 * n4 + n1 + 1
  if isLeap year && yday == 59 then ⟨year, 2, 29⟩
  else
    let day := if isLeap year && yday > 59 then yday - 1 else yday
    let month := day / 31
    let monthEnd := daysBefore.getD (month + 1) 0
    if day ≥ monthEnd then ⟨year, month + 2, day - monthEnd + 1⟩
    else ⟨year, month + 1, day - daysBefore.getD month 0 + 1⟩

/-- The second within its day of a given second; `time.absClock` splits it
into hour, minute and second, which `Time.Format` does below. -/
def absClock (abs : Int) : Nat := (abs % 86400).toNat

/-- The method `Time.locabs`: the seconds of the wall clock of the time's
location. The original counts them in a `uint64` from an epoch
9223372028715321600 seconds before 1970; the count here is an unbounded
integer, which is the same for every instant from that epoch on. -/
def Time.locabs (t : Time) : Int := t.sec + t.loc.lookup t.sec

/-- The method `Time.Format` for the layout `"2006-01-02 15:04:05.999"`, which
`time` splits into the elements year (4 digits), `-`, month (2), `-`, day (2),
a space, hour (2), `:`, minute (2), `:`, second (2) and a fractional second of
three nines. -/
def Time.Format (t : Time) : String :=
  let abs := t.locabs
  let c := absDate abs
  let s := absClock abs
  let b := appendInt [] c.year 4
  let b := appendInt (b ++ ['-']) c.month 2
  let b := appendInt (b ++ ['-']) c.day 2
  let hour : Nat := s / 3600
  let min : Nat := s / 60 % 60
  let sec : Nat := s % 60
  let b := appendInt (b ++ [' ']) hour 2
  let b := appendInt (b ++ [':']) min 2
  let b := appendInt (b ++ [':']) sec 2
  String.mk (formatNano b t.nsec 3)

/-! ## The nodes -/

/-- The interface `Expr` with its nine implementations. Each constructor is one
of the structs of `ast.go`, with that struct's fields. -/
inductive Expr where
  | GroupExpr (Id : String) (Children : List (Option Expr))
  | BinaryExpr (Id : String) (Op : Token) (LHS RHS : Option Expr)
  | UniaryExpr (Id : String) (Op : Token) (LHS : Option Expr)
  | TerniaryExpr (Id : String) (Op : Token) (LHS RHS RHS2 : Option Expr)
  | VarRef (Id : String) (Val : String)
  | NumberLiteral (Id : String) (Val : Float64)
  | BooleanLiteral (Id : String) (Val : Bool)
  | StringLiteral (Id : String) (Val : String)
  | TimeLiteral (Id : String) (Val : Time)

/-- The method `Args()` of every variant. -/
def Expr.Args : Expr → List String
  | .GroupExpr _ _ => []
  | .BinaryExpr _ _ _ _ => []
  | .UniaryExpr _ _ _ => []
  | .TerniaryExpr _ _ _ _ _ => []
  | .VarRef _ _ => []
  | .NumberLiteral _ _ => []
  | .BooleanLiteral _ _ => []
  | .StringLiteral _ _ => []
  | .TimeLiteral _ _ => []

mutual
/-- The method `String()` of every variant. -/
def Expr.String (env : Externals) : Expr → String
  | .GroupExpr _ children => childrenLoop env children ""
  | .BinaryExpr _ op (some lhs) (some rhs) =>
    lhs.String env ++ " " ++ env.tokenString op ++ " " ++ rhs.String env
  | .BinaryExpr _ _ _ _ => ""
  | .UniaryExpr _ op (some lhs) => env.tokenString op ++ " " ++ lhs.String env
  | .UniaryExpr _ _ none => ""
  | .TerniaryExpr _ op (some lhs) (some rhs) (some rhs2) =>
    lhs.String env ++ " " ++ env.tokenString op ++ " " ++ rhs.String env ++ " "
      ++ rhs2.String env
  | .TerniaryExpr _ _ _ _ _ => ""
  | .VarRef _ val => env.QuoteIdent val
  | .NumberLiteral _ val => env.FormatFloat val 'f' 3 64
  | .BooleanLiteral _ val => if val then "true" else "false"
  | .StringLiteral _ val => env.Quote val
  | .TimeLiteral _ val => val.UTC.Format
/-- The loop of `GroupExpr.String`: `for _, child := range r.Children`, with
the text accumulated so far in `str`. -/
def childrenLoop (env : Externals) : List (Option Expr) → String → String
  | [], str => str
  | none :: rest, str => childrenLoop env rest str
  | some child :: rest, str => childrenLoop env rest (str ++ child.String env)
end

/-! ## Definitions used to state the properties -/

/-- One concrete choice of the external collaborators, on which the
definitions can be evaluated: three operators of `go/token` by their text, any
other token as `token(n)`, identifiers left as they are, strings between double
quotes. The theorems below hold for every choice. -/
def sampleExternals : Externals where
  tokenString := fun tok =>
    if tok = 12 then "+" else if tok = 34 then "&&" else if tok = 39 then "=="
    else "token(" ++ toString tok ++ ")"
  QuoteIdent := fun s => s
  Quote := fun s => "\"" ++ s ++ "\""
  FormatFloat := fun _ _ _ _ => "0.000"

/-- The text asked of a Group: the renderings of the children that are
present, in list order, joined with nothing in between. -/
def concatPresent (env : Externals) (children : List (Option Expr)) : String :=
  String.join ((children.filterMap id).map (Expr.String env))

/-- The two decimal digits of a number below 100, tens first. -/
def twoDigits (n : Nat) : List Char := [digitByte (n / 10), digitByte (n % 10)]

/-- The four decimal digits of a number below 10000, thousands first. -/
def fourDigits (n : Nat) : List Char :=
  [digitByte (n / 1000), digitByte (n / 100 % 10), digitByte (n / 10 % 10),
    digitByte (n % 10)]

/-- The 19 characters `YYYY-MM-DD HH:MM:SS` of the second `abs` of a wall
clock: every field of fixed width, one space between date and time. -/
def secondText (abs : Int) : List Char :=
  let c := absDate abs
  let s := absClock abs
  fourDigits c.year.toNat ++ ['-'] ++ twoDigits c.month ++ ['-'] ++ twoDigits c.day
    ++ [' '] ++ twoDigits (s / 3600) ++ [':'] ++ twoDigits (s / 60 % 60) ++ [':']
    ++ twoDigits (s % 60)

mutual
/-- The same tree with the `Id` of every node, at every depth, replaced by the
empty string: two trees have the same shape, operators and payloads, and
differ at most in their `Id`s, exactly when this gives the same tree. -/
def eraseIds : Expr → Expr
  | .GroupExpr _ children => .GroupExpr "" (eraseIdsChildren children)
  | .BinaryExpr _ op lhs rhs => .BinaryExpr "" op (eraseIdsOperand lhs) (eraseIdsOperand rhs)
  | .UniaryExpr _ op lhs => .UniaryExpr "" op (eraseIdsOperand lhs)
  | .TerniaryExpr _ op lhs rhs rhs2 =>
    .TerniaryExpr "" op (eraseIdsOperand lhs) (eraseIdsOperand rhs) (eraseIdsOperand rhs2)
  | .VarRef _ val => .VarRef "" val
  | .NumberLiteral _ val => .NumberLiteral "" val
  | .BooleanLiteral _ val => .BooleanLiteral "" val
  | .StringLiteral _ val => .StringLiteral "" val
  | .TimeLiteral _ val => .TimeLiteral "" val
/-- The function `eraseIds` on an operand slot, which may be nil. -/
def eraseIdsOperand : Option Expr → Option Expr
  | none => none
  | some e => some (eraseIds e)
/-- The function `eraseIds` on a list of children. -/
def eraseIdsChildren : List (Option Expr) → List (Option Expr)
  | [] => []
  | child :: rest => eraseIdsOperand child :: eraseIdsChildren rest
end

mutual
/-- The nesting depth of a tree: the number of `String()` calls that are
active at once, at most, while the tree is rendered. -/
def depth : Expr → Nat
  | .GroupExpr _ children => depthChildren children + 1
  | .BinaryExpr _ _ lhs rhs => max (depthOperand lhs) (depthOperand rhs) + 1
  | .UniaryExpr _ _ lhs => depthOperand lhs + 1
  | .TerniaryExpr _ _ lhs rhs rhs2 =>
    max (depthOperand lhs) (max (depthOperand rhs) (depthOperand rhs2)) + 1
  | .VarRef _ _ => 1
  | .NumberLiteral _ _ => 1
  | .BooleanLiteral _ _ => 1
  | .StringLiteral _ _ => 1
  | .TimeLiteral _ _ => 1
/-- The depth below an operand slot; a nil slot has none. -/
def depthOperand : Option Expr → Nat
  | none => 0
  | some e => depth e
/-- The greatest depth among the children of a Group. -/
def depthChildren : List (Option Expr) → Nat
  | [] => 0
  | child :: rest => max (depthOperand child) (depthChildren rest)
end

mutual
/-- The method `String()` run with a bound on the depth of nested calls: every
call of `String()` on a node takes one unit, and the run gives up (`none`) when
a call has none left. Apart from the bound the cases are those of
`Expr.String`. -/
def stringWithin (env : Externals) : Nat → Expr → Option String
  | 0, _ => none
  | fuel + 1, .GroupExpr _ children => childrenLoopWithin env fuel children ""
  | fuel + 1, .BinaryExpr _ op (some lhs) (some rhs) =>
    match stringWithin env fuel lhs, stringWithin env fuel rhs with
    | some l, some r => some (l ++ " " ++ env.tokenString op ++ " " ++ r)
    | _, _ => none
  | _ + 1, .BinaryExpr _ _ _ _ => some ""
  | fuel + 1, .UniaryExpr _ op (some lhs) =>
    match stringWithin env fuel lhs with
    | some l => some (env.tokenString op ++ " " ++ l)
    | none => none
  | _ + 1, .UniaryExpr _ _ none => some ""
  | fuel + 1, .TerniaryExpr _ op (some lhs) (some rhs) (some rhs2) =>
    match stringWithin env fuel lhs, stringWithin env fuel rhs,
      stringWithin env fuel rhs2 with
    | some l, some r, some r2 =>
      some (l ++ " " ++ env.tokenString op ++ " " ++ r ++ " " ++ r2)
    | _, _, _ => none
  | _ + 1, .TerniaryExpr _ _ _ _ _ => some ""
  | _ + 1, .VarRef _ val => some (env.QuoteIdent val)
  | _ + 1, .NumberLiteral _ val => some (env.FormatFloat val 'f' 3 64)
  | _ + 1, .BooleanLiteral _ val => some (if val then "true" else "false")
  | _ + 1, .StringLiteral _ val => some (env.Quote val)
  | _ + 1, .TimeLiteral _ val => some val.UTC.Format
/-- The loop of `GroupExpr.String` under the same bound; `fuel` is what is
left for the calls on the children. -/
def childrenLoopWithin (env : Externals) :
    Nat → List (Option Expr) → String → Option String
  | _, [], str => some str
  | fuel, none :: rest, str => childrenLoopWithin env fuel rest str
  | fuel, some child :: rest, str =>
    match stringWithin env fuel child with
    | some s => childrenLoopWithin env fuel rest (str ++ s)
    | none => none
end

/-! ## Models of the external collaborators -/

/-- The integer nearest to `num / den`, the nearer even one when two are
equally near. -/
def roundHalfEven (num den : Nat) : Nat :=
  let q := num / den
  let r := num % den
  if 2 * r < den then q
  else if 2 * r > den then q + 1
  else if q % 2 = 0 then q else q + 1

/-- The decimal digits of a natural number, without padding. -/
def decimalText (n : Nat) : List Char := utoaLoop n n []

/-- The last `k` decimal digits of `r`, zeros included. -/
def fracDigits : Nat → Nat → List Char
  | 0, _ => []
  | k + 1, r => digitByte (r / 10 ^ k % 10) :: fracDigits k r

/-- The mantissa of a finite `float64` as `strconv` decodes it: the low 52
bits, with the implicit top bit added unless the number is denormal. -/
def float64Mant (bits : Float64) : Nat :=
  if bits / 2 ^ 52 % 2 ^ 11 = 0 then bits % 2 ^ 52 else bits % 2 ^ 52 + 2 ^ 52

/-- The exponent field of a `float64`, that of a denormal number counting as
1: the absolute value of a finite number is
`float64Mant * 2 ^ float64Exp / 2 ^ 1075`. -/
def float64Exp (bits : Float64) : Nat :=
  if bits / 2 ^ 52 % 2 ^ 11 = 0 then 1 else bits / 2 ^ 52 % 2 ^ 11

/-- The numerator of the absolute value of a finite `float64`, which is
`float64Num / float64Den`: the mantissa shifted left when the binary exponent,
`float64Exp - 1075`, is positive. -/
def float64Num (bits : Float64) : Nat := float64Mant bits * 2 ^ (float64Exp bits - 1075)

/-- The denominator of the absolute value of a finite `float64`: a power of
two when the binary exponent is negative, and 1 otherwise. -/
def float64Den (bits : Float64) : Nat := 2 ^ (1075 - float64Exp bits)

/-- The call `strconv.FormatFloat(f, 'f', prec, 64)` of the standard library,
for `prec ≥ 0`: "NaN", "+Inf" or "-Inf" when the exponent field is all ones;
otherwise a `-` when the sign bit is set, then the exact value of the number
rounded to `prec` decimals, to nearest and to even on a tie, as its integer
digits, a `.` and `prec` digits. -/
def FormatFloatF (bits : Float64) (prec : Nat) : String :=
  let neg := bits / 2 ^ 63 != 0
  let exp := bits / 2 ^ 52 % 2 ^ 11
  let mant := bits % 2 ^ 52
  if exp = 2047 then
    if mant ≠ 0 then "NaN" else if neg then "-Inf" else "+Inf"
  else
    let n := roundHalfEven (float64Num bits * 10 ^ prec) (float64Den bits)
    String.mk ((if neg then ['-'] else []) ++ decimalText (n / 10 ^ prec)
      ++ (if prec > 0 then '.' :: fracDigits prec (n % 10 ^ prec) else []))

/-- Modelled from the spec: what section 4.3 leaves to "the target grammar" of
the companion tokenizer, which is not part of `ast.go`: the quote character of
identifiers, that of strings, the escape character, the reserved words, and
the characters other than these that a string literal must escape, each with
the text that stands for it after the escape character. -/
structure Grammar where
  identQuote : Char
  stringQuote : Char
  escape : Char
  reserved : String → Bool
  escapeOther : Char → Option (List Char)

/-- Modelled from the spec: the bare identifiers of section 4.3, which start
with a letter or an underscore, continue with letters, digits and underscores,
and are not reserved words. The tokenizer that defines them is not part of
`ast.go`. -/
def isBareIdent (g : Grammar) (name : String) : Bool :=
  match name.data with
  | [] => false
  | c :: cs =>
    (c.isAlpha || c == '_') && cs.all (fun c => c.isAlphanum || c == '_')
      && !g.reserved name

/-- Modelled from the spec: the escaping of section 4.3. Every occurrence of
the quote character and of the escape character gets the escape character in
front; with `others` set, the further characters the grammar names are replaced
by the escape character and their text. -/
def escapeChars (g : Grammar) (quote : Char) (others : Bool) : List Char → List Char
  | [] => []
  | c :: cs =>
    (if c == quote || c == g.escape then [g.escape, c]
     else
      match others, g.escapeOther c with
      | true, some text => g.escape :: text
      | _, _ => [c]) ++ escapeChars g quote others cs

/-- Modelled from the spec: the function `QuoteIdent` of package `ast`, which
is defined outside `ast.go`. By section 4.3 it returns a bare identifier
unmodified, and otherwise wraps the name in the identifier quote character,
escaping the quote and escape characters in it. -/
def QuoteIdent (g : Grammar) (name : String) : String :=
  if isBareIdent g name then name
  else String.mk (g.identQuote :: escapeChars g g.identQuote false name.data
    ++ [g.identQuote])

/-- Modelled from the spec: the function `Quote` of package `ast`, which is
defined outside `ast.go`. By section 4.3 it always wraps the value in the
string quote character, escaping the quote and escape characters and the other
characters the grammar requires escaping. -/
def Quote (g : Grammar) (value : String) : String :=
  String.mk (g.stringQuote :: escapeChars g g.stringQuote true value.data
    ++ [g.stringQuote])

/-- One grammar of the kind section 4.3 describes: identifiers between double
quotes, strings between single quotes, the backslash as escape character, a
few reserved words, and the newline written as `n` after the backslash. -/
def sampleGrammar : Grammar where
  identQuote := Char.ofNat 34
  stringQuote := Char.ofNat 39
  escape := Char.ofNat 92
  reserved := fun s => ["true", "false", "and", "or", "not"].contains s
  escapeOther := fun c => if c = Char.ofNat 10 then some ['n'] else none

/-- The external collaborators as modelled above: the token texts of
`sampleExternals`, the quoting functions of section 4.3 over `sampleGrammar`,
and the number formatting of `strconv`. -/
def modelExternals : Externals where
  tokenString := sampleExternals.tokenString
  QuoteIdent := QuoteIdent sampleGrammar
  Quote := Quote sampleGrammar
  FormatFloat := fun f _ prec _ => FormatFloatF f prec.toNat

/-- A text without its leading `-`, if it has one. -/
def stripMinus : List Char → List Char
  | '-' :: rest => rest
  | cs => cs

/-- The shape of a number in fixed-point notation with three decimals: an
optional `-`, one or more digits, a `.`, exactly three digits, and nothing
else (no exponent, no sign other than a leading `-`). -/
def isFixed3 (s : String) : Bool :=
  match (stripMinus s.data).reverse with
  | d3 :: d2 :: d1 :: '.' :: intPart =>
    d1.isDigit && d2.isDigit && d3.isDigit && !intPart.isEmpty
      && intPart.all Char.isDigit
  | _ => false

/-! ## Interface values that hold a nil pointer -/

/-- The nine struct types of `ast.go` whose pointers implement `Expr`. -/
inductive Kind where
  | GroupExpr | BinaryExpr | UniaryExpr | TerniaryExpr | VarRef | NumberLiteral
  | BooleanLiteral | StringLiteral | TimeLiteral

/-- A Go value of the interface type `Expr`, in full: the nil interface, an
interface that holds a nil pointer of one of the nine types (such a value is
not equal to `nil`), or an interface that holds a pointer to a node, whose
slots are again values of this kind. -/
inductive Value where
  | nil
  | nilPtr (kind : Kind)
  | GroupExpr (Id : String) (Children : List Value)
  | BinaryExpr (Id : String) (Op : Token) (LHS RHS : Value)
  | UniaryExpr (Id : String) (Op : Token) (LHS : Value)
  | TerniaryExpr (Id : String) (Op : Token) (LHS RHS RHS2 : Value)
  | VarRef (Id : String) (Val : String)
  | NumberLiteral (Id : String) (Val : Float64)
  | BooleanLiteral (Id : String) (Val : Bool)
  | StringLiteral (Id : String) (Val : String)
  | TimeLiteral (Id : String) (Val : Time)

/-- The test `x == nil` on an interface value: true of the nil interface only,
not of an interface that holds a nil pointer. -/
def Value.isNil : Value → Bool
  | .nil => true
  | _ => false

/-- How a call of `String()` ends: with a text, with a run-time panic (a nil
pointer dereference), or on the bound set for the depth of nested calls. -/
inductive Outcome where
  | text (s : String)
  | panic
  | outOfDepth
  deriving DecidableEq

/-- The rest of a computation after a call that may have failed: a failure is
passed on as it is. -/
def Outcome.andThen (o : Outcome) (rest : String → Outcome) : Outcome :=
  match o with
  | .text s => rest s
  | .panic => .panic
  | .outOfDepth => .outOfDepth

mutual
/-- The call `x.String()` on an interface value, with a bound on the depth of
nested calls. On the nil interface the call panics; on a nil pointer the method
is entered and panics at its first access to a field of the receiver, which
every one of the nine methods makes; on a node the method runs as written in
`ast.go`, its guards being the tests `!= nil` on interface values. -/
def callString (env : Externals) : Nat → Value → Outcome
  | 0, _ => .outOfDepth
  | _ + 1, .nil => .panic
  | _ + 1, .nilPtr _ => .panic
  | fuel + 1, .GroupExpr _ children => callChildren env fuel children ""
  | fuel + 1, .BinaryExpr _ op lhs rhs =>
    if !lhs.isNil && !rhs.isNil then
      (callString env fuel lhs).andThen fun l =>
      (callString env fuel rhs).andThen fun r =>
      .text (l ++ " " ++ env.tokenString op ++ " " ++ r)
    else .text ""
  | fuel + 1, .UniaryExpr _ op lhs =>
    if !lhs.isNil then
      (callString env fuel lhs).andThen fun l =>
      .text (env.tokenString op ++ " " ++ l)
    else .text ""
  | fuel + 1, .TerniaryExpr _ op lhs rhs rhs2 =>
    if !lhs.isNil && !rhs.isNil && !rhs2.isNil then
      (callString env fuel lhs).andThen fun l =>
      (callString env fuel rhs).andThen fun r =>
      (callString env fuel rhs2).andThen fun r2 =>
      .text (l ++ " " ++ env.tokenString op ++ " " ++ r ++ " " ++ r2)
    else .text ""
  | _ + 1, .VarRef _ val => .text (env.QuoteIdent val)
  | _ + 1, .NumberLiteral _ val => .text (env.FormatFloat val 'f' 3 64)
  | _ + 1, .BooleanLiteral _ val => .text (if val then "true" else "false")
  | _ + 1, .StringLiteral _ val => .text (env.Quote val)
  | _ + 1, .TimeLiteral _ val => .text val.UTC.Format
/-- The loop of `GroupExpr.String` over interface values: a child is skipped
when it is the nil interface, and called otherwise. -/
def callChildren (env : Externals) : Nat → List Value → String → Outcome
  | _, [], str => .text str
  | fuel, child :: rest, str =>
    if !child.isNil then
      (callString env fuel child).andThen fun s =>
      callChildren env fuel rest (str ++ s)
    else callChildren env fuel rest str
end

mutual
/-- No slot of the value, at any depth, holds a nil pointer: every slot is the
nil interface or points to a node. -/
def noNilPointer : Value → Bool
  | .nil => true
  | .nilPtr _ => false
  | .GroupExpr _ children => noNilPointerList children
  | .BinaryExpr _ _ lhs rhs => noNilPointer lhs && noNilPointer rhs
  | .UniaryExpr _ _ lhs => noNilPointer lhs
  | .TerniaryExpr _ _ lhs rhs rhs2 =>
    noNilPointer lhs && noNilPointer rhs && noNilPointer rhs2
  | .VarRef _ _ => true
  | .NumberLiteral _ _ => true
  | .BooleanLiteral _ _ => true
  | .StringLiteral _ _ => true
  | .TimeLiteral _ _ => true
/-- The condition `noNilPointer` on every child of a Group. -/
def noNilPointerList : List Value → Bool
  | [] => true
  | child :: rest => noNilPointer child && noNilPointerList rest
end

mutual
/-- The operand slot of the tree model that an interface value stands for: the
nil interface is the absent operand, a node is the node with its slots read in
the same way. A nil pointer has no counterpart in the tree model; it is read
as absent here, and kept out by `noNilPointer` where that matters. -/
def toOperand : Value → Option Expr
  | .nil => none
  | .nilPtr _ => none
  | .GroupExpr id children => some (.GroupExpr id (toChildren children))
  | .BinaryExpr id op lhs rhs => some (.BinaryExpr id op (toOperand lhs) (toOperand rhs))
  | .UniaryExpr id op lhs => some (.UniaryExpr id op (toOperand lhs))
  | .TerniaryExpr id op lhs rhs rhs2 =>
    some (.TerniaryExpr id op (toOperand lhs) (toOperand rhs) (toOperand rhs2))
  | .VarRef id val => some (.VarRef id val)
  | .NumberLiteral id val => some (.NumberLiteral id val)
  | .BooleanLiteral id val => some (.BooleanLiteral id val)
  | .StringLiteral id val => some (.StringLiteral id val)
  | .TimeLiteral id val => some (.TimeLiteral id val)
/-- The children of a Group, each read by `toOperand`. -/
def toChildren : List Value → List (Option Expr)
  | [] => []
  | child :: rest => toOperand child :: toChildren rest
end

/-! ## Helper lemmas -/

theorem string_join_cons (a : String) (l : List String) :
    String.join (a :: l) = a ++ String.join l := by
  apply String.ext
  simp [String.data_join, String.data_append]

theorem concatPresent_nil (env : Externals) : concatPresent env [] = "" := by
  simp [concatPresent, String.join]

theorem concatPresent_none (env : Externals) (rest : List (Option Expr)) :
    concatPresent env (none :: rest) = concatPresent env rest := by
  simp [concatPresent]

theorem concatPresent_some (env : Externals) (child : Expr)
    (rest : List (Option Expr)) :
    concatPresent env (some child :: rest)
      = child.String env ++ concatPresent env rest := by
  simp [concatPresent, string_join_cons]

theorem string_append_assoc (a b c : String) : a ++ b ++ c = a ++ (b ++ c) := by
  apply String.ext
  simp [String.data_append]

/-- The loop of `GroupExpr.String` appends to the text it starts from the
renderings of the children that are present, in order. -/
theorem childrenLoop_eq (env : Externals) (children : List (Option Expr)) :
    ∀ str : String, childrenLoop env children str = str ++ concatPresent env children := by
  induction children with
  | nil =>
    intro str
    simp [childrenLoop, concatPresent_nil]
  | cons head rest ih =>
    intro str
    cases head with
    | none => simp [childrenLoop, concatPresent_none, ih]
    | some child =>
      simp [childrenLoop, concatPresent_some, ih, string_append_assoc]

theorem concatPresent_replicate_none (env : Externals) (n : Nat) :
    concatPresent env (List.replicate n none) = "" := by
  induction n with
  | zero => exact concatPresent_nil env
  | succ k ih => rw [List.replicate_succ, concatPresent_none, ih]

/-! ### The calendar and the formatting of a time -/

theorem isLeap_iff (year : Int) :
    isLeap year = true ↔ year % 4 = 0 ∧ (year % 100 ≠ 0 ∨ year % 400 = 0) := by
  simp [isLeap]

/-- The month and day that `absDate` derives from the day of the year. -/
theorem monthDay_bounds (leap : Bool) (yday : Nat) (year : Int)
    (h : yday ≤ 364 ∨ (leap = true ∧ yday ≤ 365)) :
    let r : Civil :=
      if leap && yday == 59 then ⟨year, 2, 29⟩
      else
        let day := if leap && yday > 59 then yday - 1 else yday
        let month := day / 31
        let monthEnd := daysBefore.getD (month + 1) 0
        if day ≥ monthEnd then ⟨year, month + 2, day - monthEnd + 1⟩
        else ⟨year, month + 1, day - daysBefore.getD month 0 + 1⟩
    1 ≤ r.month ∧ r.month ≤ 12 ∧ 1 ≤ r.day ∧ r.day ≤ 31 := by
  intro r
  by_cases h59 : (leap && yday == 59) = true
  · simp [r, h59]
  · generalize hday : (if (leap && decide (yday > 59)) = true then yday - 1 else yday) = day
    have hdayle : day ≤ 364 := by
      cases leap <;> simp at hday h <;> (try split at hday) <;> omega
    have hr : r = if day ≥ daysBefore.getD (day / 31 + 1) 0
        then ⟨year, day / 31 + 2, day - daysBefore.getD (day / 31 + 1) 0 + 1⟩
        else ⟨year, day / 31 + 1, day - daysBefore.getD (day / 31) 0 + 1⟩ := by
      simp only [r, h59, hday]
      simp
    rw [hr]
    have hm : day / 31 ≤ 11 := by omega
    generalize hmm : day / 31 = m at hm ⊢
    interval_cases m <;> simp [daysBefore] <;> split <;> simp <;> omega

theorem absDate_month_day (abs : Int) :
    1 ≤ (absDate abs).month ∧ (absDate abs).month ≤ 12
    ∧ 1 ≤ (absDate abs).day ∧ (absDate abs).day ≤ 31 := by
  unfold absDate
  simp only []
  apply monthDay_bounds
  generalize hd : ((abs / 86400 + 719162) % 146097).toNat = d
  have hlt : d < 146097 := by omega
  generalize (abs / 86400 + 719162) / 146097 = n400
  generalize hn100 : d / 36524 - d / 36524 / 4 = n100
  generalize hd1 : d - 36524 * n100 = d1
  have hd1lt : d1 < 36525 := by omega
  have h100 : d1 = 36524 → n100 = 3 := by omega
  generalize hn4 : d1 / 1461 = n4
  generalize hd2 : d1 - 1461 * n4 = d2
  have hd2lt : d2 < 1461 := by omega
  generalize hn1 : d2 / 365 - d2 / 365 / 4 = n1
  generalize hyday : d2 - 365 * n1 = yday
  have hyd : yday ≤ 365 := by omega
  by_cases h365 : yday ≤ 364
  · exact Or.inl h365
  · right
    refine ⟨?_, hyd⟩
    rw [isLeap_iff]
    have hn1v : n1 = 3 := by omega
    have hd2v : d2 = 1460 := by omega
    have hn4le : n4 ≤ 24 := by omega
    have h24 : n4 = 24 → n100 = 3 := by omega
    omega

theorem absClock_lt (abs : Int) : absClock abs < 86400 := by
  unfold absClock
  omega

theorem utoaLoop_small (fuel u : Nat) (buf : List Char) (h : u < 10) :
    utoaLoop fuel u buf = digitByte u :: buf := by
  cases fuel with
  | zero => rfl
  | succ k =>
    have h2 : ¬ (u ≥ 10) := by omega
    simp [utoaLoop, h2]

theorem utoaLoop_step (fuel u : Nat) (buf : List Char) (h : 10 ≤ u) :
    utoaLoop (fuel + 1) u buf = utoaLoop fuel (u / 10) (digitByte (u % 10) :: buf) := by
  have h2 : u - u / 10 * 10 = u % 10 := by omega
  simp [utoaLoop, h, h2]

theorem appendInt_natCast (b : List Char) (n width : Nat) :
    appendInt b (n : Int) width
      = b ++ List.replicate (width - (utoaLoop 19 n []).length) '0' ++ utoaLoop 19 n [] := by
  have h : ¬ ((n : Int) < 0) := by omega
  simp [appendInt, h]

theorem appendInt_two (b : List Char) (n : Nat) (h : n < 100) :
    appendInt b (n : Int) 2 = b ++ twoDigits n := by
  rw [appendInt_natCast]
  by_cases h10 : n < 10
  · have hq : n / 10 = 0 := by omega
    have hr : n % 10 = n := by omega
    rw [utoaLoop_small 19 n [] h10]
    simp [twoDigits, hq, hr, digitByte, List.replicate]
  · rw [utoaLoop_step 18 n [] (by omega), utoaLoop_small 18 (n / 10) _ (by omega)]
    simp [twoDigits]

theorem appendInt_four (b : List Char) (n : Nat) (h : n < 10000) :
    appendInt b (n : Int) 4 = b ++ fourDigits n := by
  rw [appendInt_natCast]
  by_cases h10 : n < 10
  · have h1 : n / 1000 = 0 := by omega
    have h2 : n / 100 % 10 = 0 := by omega
    have h3 : n / 10 % 10 = 0 := by omega
    have hr : n % 10 = n := by omega
    rw [utoaLoop_small 19 n [] h10]
    simp [fourDigits, h1, h2, h3, hr, digitByte, List.replicate]
  · rw [utoaLoop_step 18 n [] (by omega)]
    by_cases h100 : n < 100
    · have h1 : n / 1000 = 0 := by omega
      have h2 : n / 100 % 10 = 0 := by omega
      have h3 : n / 10 % 10 = n / 10 := by omega
      rw [utoaLoop_small 18 (n / 10) _ (by omega)]
      simp [fourDigits, h1, h2, h3, digitByte, List.replicate]
    · rw [utoaLoop_step 17 (n / 10) _ (by omega)]
      have e1 : n / 10 / 10 = n / 100 := by omega
      rw [e1]
      by_cases h1000 : n < 1000
      · have h1 : n / 1000 = 0 := by omega
        have h2 : n / 100 % 10 = n / 100 := by omega
        rw [utoaLoop_small 17 (n / 100) _ (by omega)]
        simp [fourDigits, h1, h2, digitByte, List.replicate]
      · rw [utoaLoop_step 16 (n / 100) _ (by omega)]
        have e2 : n / 100 / 10 = n / 1000 := by omega
        rw [e2, utoaLoop_small 16 (n / 1000) _ (by omega)]
        simp [fourDigits]

theorem digitByte_ne_dot (k : Nat) (h : k < 10) : digitByte k ≠ '.' := by
  interval_cases k <;> decide

theorem formatNano_zero (b : List Char) (n : Nat) : formatNano b 0 n = b := by
  simp [formatNano]

theorem utc_locabs (t : Time) : t.UTC.locabs = t.sec := by
  simp [Time.UTC, Time.locabs, utcLoc]

theorem format_exact_second (t : Time) (hns : t.nsec = 0)
    (hy0 : 0 ≤ (absDate t.sec).year) (hy1 : (absDate t.sec).year ≤ 9999) :
    t.UTC.Format = String.mk (secondText t.sec) := by
  have hb := absDate_month_day t.sec
  have hc := absClock_lt t.sec
  have hyear : (absDate t.sec).year = (((absDate t.sec).year.toNat : Nat) : Int) := by
    omega
  have hnsec : t.UTC.nsec = 0 := by simp [Time.UTC, hns]
  unfold Time.Format
  simp only [utc_locabs, hnsec, formatNano_zero]
  rw [hyear, appendInt_four _ _ (by omega), appendInt_two _ _ (by omega),
    appendInt_two _ _ (by omega), appendInt_two _ _ (by omega),
    appendInt_two _ _ (by omega), appendInt_two _ _ (by omega)]
  simp [secondText]

theorem secondText_length (abs : Int) : (secondText abs).length = 19 := by
  simp [secondText, fourDigits, twoDigits]

theorem secondText_no_dot (abs : Int) (hy : (absDate abs).year ≤ 9999) :
    '.' ∉ secondText abs := by
  have hb := absDate_month_day abs
  have hc := absClock_lt abs
  have d := digitByte_ne_dot
  simp only [secondText, fourDigits, twoDigits, List.mem_append, List.mem_cons,
    List.mem_singleton, List.not_mem_nil, or_false, not_or]
  refine ⟨⟨⟨⟨⟨⟨⟨⟨⟨⟨⟨?_, ?_, ?_, ?_⟩, ?_⟩, ?_, ?_⟩, ?_⟩, ?_, ?_⟩, ?_⟩, ?_, ?_⟩, ?_⟩,
    ?_, ?_⟩, ?_⟩, ?_, ?_⟩ <;>
    first
      | decide
      | exact fun e => d _ (by omega) e.symm

theorem formatNano_quarter (b : List Char) :
    formatNano b 250000000 3 = b ++ ['.', '2', '5'] := by
  have hd : utoaLoop 19 250000000 [] = ['2', '5', '0', '0', '0', '0', '0', '0', '0'] := by
    decide
  have hsplit : b ++ ['.'] ++ List.replicate (9 - 9) '0'
        ++ ['2', '5', '0', '0', '0', '0', '0', '0', '0']
      = (b ++ ['.', '2', '5', '0']) ++ ['0', '0', '0', '0', '0', '0'] := by
    simp
  have hlen : (b ++ ['.', '2', '5', '0'] ++ ['0', '0', '0', '0', '0', '0']).length - 9 + 3
      = (b ++ ['.', '2', '5', '0']).length := by
    simp
  unfold formatNano
  rw [if_neg (by decide)]
  simp only []
  rw [appendInt_natCast, hd]
  simp only [List.length_cons, List.length_nil]
  rw [hsplit, if_pos (show 3 < 9 by decide), hlen, List.take_left]
  simp [trimZeros, List.dropWhile]

/-- Without the conversion to UTC the text does depend on the location: the
same instant reads differently on the wall clocks of two offsets. -/
theorem format_depends_on_location :
    Time.Format ⟨1609556645, 0, ⟨"IST", fun _ => 19800⟩⟩ = "2021-01-02 08:34:05"
    ∧ Time.Format ⟨1609556645, 0, ⟨"PST", fun _ => -28800⟩⟩ = "2021-01-01 19:04:05" := by
  decide

/-! ### Identity tags -/

mutual
/-- Replacing every `Id` by the empty string does not change the rendering. -/
theorem string_eraseIds (env : Externals) :
    ∀ e : Expr, (eraseIds e).String env = e.String env
  | .GroupExpr _ children => by
    simp [eraseIds, Expr.String, childrenLoop_eraseIds env children ""]
  | .BinaryExpr _ _ none _ => by simp [eraseIds, eraseIdsOperand, Expr.String]
  | .BinaryExpr _ _ (some _) none => by simp [eraseIds, eraseIdsOperand, Expr.String]
  | .BinaryExpr _ _ (some lhs) (some rhs) => by
    simp [eraseIds, eraseIdsOperand, Expr.String, string_eraseIds env lhs,
      string_eraseIds env rhs]
  | .UniaryExpr _ _ none => by simp [eraseIds, eraseIdsOperand, Expr.String]
  | .UniaryExpr _ _ (some lhs) => by
    simp [eraseIds, eraseIdsOperand, Expr.String, string_eraseIds env lhs]
  | .TerniaryExpr _ _ none _ _ => by simp [eraseIds, eraseIdsOperand, Expr.String]
  | .TerniaryExpr _ _ (some _) none _ => by
    simp [eraseIds, eraseIdsOperand, Expr.String]
  | .TerniaryExpr _ _ (some _) (some _) none => by
    simp [eraseIds, eraseIdsOperand, Expr.String]
  | .TerniaryExpr _ _ (some lhs) (some rhs) (some rhs2) => by
    simp [eraseIds, eraseIdsOperand, Expr.String, string_eraseIds env lhs,
      string_eraseIds env rhs, string_eraseIds env rhs2]
  | .VarRef _ _ => by simp [eraseIds, Expr.String]
  | .NumberLiteral _ _ => by simp [eraseIds, Expr.String]
  | .BooleanLiteral _ _ => by simp [eraseIds, Expr.String]
  | .StringLiteral _ _ => by simp [eraseIds, Expr.String]
  | .TimeLiteral _ _ => by simp [eraseIds, Expr.String]
/-- The loop of `GroupExpr.String` gives the same text on the children with
their `Id`s replaced. -/
theorem childrenLoop_eraseIds (env : Externals) :
    ∀ (children : List (Option Expr)) (str : String),
      childrenLoop env (eraseIdsChildren children) str = childrenLoop env children str
  | [], _ => by simp [eraseIdsChildren]
  | none :: rest, str => by
    simp [eraseIdsChildren, eraseIdsOperand, childrenLoop,
      childrenLoop_eraseIds env rest str]
  | some child :: rest, str => by
    simp [eraseIdsChildren, eraseIdsOperand, childrenLoop, string_eraseIds env child,
      childrenLoop_eraseIds env rest]
end

/-! ### Groups, operators and nesting -/

theorem string_empty_append (a : String) : "" ++ a = a := by
  apply String.ext
  simp [String.data_append]

theorem concatPresent_append (env : Externals) (xs ys : List (Option Expr)) :
    concatPresent env (xs ++ ys) = concatPresent env xs ++ concatPresent env ys := by
  induction xs with
  | nil => simp [concatPresent_nil, string_empty_append]
  | cons head rest ih =>
    cases head with
    | none => simpa [concatPresent_none] using ih
    | some child =>
      simp [concatPresent_some, ih, string_append_assoc]

theorem groupExpr_string_eq (env : Externals) (id : String)
    (children : List (Option Expr)) :
    (Expr.GroupExpr id children).String env = concatPresent env children := by
  simp [Expr.String, childrenLoop_eq, string_empty_append]

/-- A text with a space in it is not empty. -/
theorem append_space_append_ne_empty (a b : String) : a ++ " " ++ b ≠ "" := by
  intro h
  have hl := congrArg String.length h
  simp only [String.length_append] at hl
  have h1 : " ".length = 1 := by decide
  have h0 : "".length = 0 := by decide
  omega

mutual
/-- Within a depth bound no smaller than the depth of the tree, the bounded
run of `String()` ends with the text of `Expr.String`. -/
theorem stringWithin_of_depth_le (env : Externals) :
    ∀ (fuel : Nat) (e : Expr), depth e ≤ fuel →
      stringWithin env fuel e = some (e.String env)
  | 0, e, h => by
    cases e <;> simp [depth] at h
  | fuel + 1, .GroupExpr _ children, h => by
    simp only [depth, Nat.add_le_add_iff_right] at h
    simp [stringWithin, Expr.String, childrenLoopWithin_of_depth_le env fuel children "" h]
  | fuel + 1, .BinaryExpr _ _ none _, _ => by simp [stringWithin, Expr.String]
  | fuel + 1, .BinaryExpr _ _ (some _) none, _ => by simp [stringWithin, Expr.String]
  | fuel + 1, .BinaryExpr _ _ (some lhs) (some rhs), h => by
    simp only [depth, depthOperand, Nat.add_le_add_iff_right, Nat.max_le] at h
    simp [stringWithin, Expr.String, stringWithin_of_depth_le env fuel lhs h.1,
      stringWithin_of_depth_le env fuel rhs h.2]
  | fuel + 1, .UniaryExpr _ _ none, _ => by simp [stringWithin, Expr.String]
  | fuel + 1, .UniaryExpr _ _ (some lhs), h => by
    simp only [depth, depthOperand, Nat.add_le_add_iff_right] at h
    simp [stringWithin, Expr.String, stringWithin_of_depth_le env fuel lhs h]
  | fuel + 1, .TerniaryExpr _ _ none _ _, _ => by simp [stringWithin, Expr.String]
  | fuel + 1, .TerniaryExpr _ _ (some _) none _, _ => by
    simp [stringWithin, Expr.String]
  | fuel + 1, .TerniaryExpr _ _ (some _) (some _) none, _ => by
    simp [stringWithin, Expr.String]
  | fuel + 1, .TerniaryExpr _ _ (some lhs) (some rhs) (some rhs2), h => by
    simp only [depth, depthOperand, Nat.add_le_add_iff_right, Nat.max_le] at h
    simp [stringWithin, Expr.String, stringWithin_of_depth_le env fuel lhs h.1,
      stringWithin_of_depth_le env fuel rhs h.2.1,
      stringWithin_of_depth_le env fuel rhs2 h.2.2]
  | fuel + 1, .VarRef _ _, _ => by simp [stringWithin, Expr.String]
  | fuel + 1, .NumberLiteral _ _, _ => by simp [stringWithin, Expr.String]
  | fuel + 1, .BooleanLiteral _ _, _ => by simp [stringWithin, Expr.String]
  | fuel + 1, .StringLiteral _ _, _ => by simp [stringWithin, Expr.String]
  | fuel + 1, .TimeLiteral _ _, _ => by simp [stringWithin, Expr.String]
/-- The bounded loop over the children ends with the text of the loop of
`GroupExpr.String`, when the bound covers the deepest child. -/
theorem childrenLoopWithin_of_depth_le (env : Externals) :
    ∀ (fuel : Nat) (children : List (Option Expr)) (str : String),
      depthChildren children ≤ fuel →
      childrenLoopWithin env fuel children str = some (childrenLoop env children str)
  | _, [], _, _ => by simp [childrenLoopWithin, childrenLoop]
  | fuel, none :: rest, str, h => by
    simp only [depthChildren, depthOperand, Nat.max_le] at h
    simp [childrenLoopWithin, childrenLoop,
      childrenLoopWithin_of_depth_le env fuel rest str h.2]
  | fuel, some child :: rest, str, h => by
    simp only [depthChildren, depthOperand, Nat.max_le] at h
    simp [childrenLoopWithin, childrenLoop, stringWithin_of_depth_le env fuel child h.1,
      childrenLoopWithin_of_depth_le env fuel rest _ h.2]
end

/-- The bound on the depth of calls is a real one: a Unary over a name needs
two nested calls, and gives up with one. -/
theorem stringWithin_bound_matters :
    stringWithin sampleExternals 1 (Expr.UniaryExpr "" 43 (some (.VarRef "" "x"))) = none
    ∧ stringWithin sampleExternals 2 (Expr.UniaryExpr "" 43 (some (.VarRef "" "x")))
        = some "token(43) x" := by
  decide

mutual
/-- Replacing the `Id`s does not change the depth of a tree. -/
theorem depth_eraseIds : ∀ e : Expr, depth (eraseIds e) = depth e
  | .GroupExpr _ children => by
    simp [eraseIds, depth, depthChildren_eraseIds children]
  | .BinaryExpr _ _ lhs rhs => by
    simp [eraseIds, depth, depthOperand_eraseIds lhs, depthOperand_eraseIds rhs]
  | .UniaryExpr _ _ lhs => by simp [eraseIds, depth, depthOperand_eraseIds lhs]
  | .TerniaryExpr _ _ lhs rhs rhs2 => by
    simp [eraseIds, depth, depthOperand_eraseIds lhs, depthOperand_eraseIds rhs,
      depthOperand_eraseIds rhs2]
  | .VarRef _ _ => by simp [eraseIds, depth]
  | .NumberLiteral _ _ => by simp [eraseIds, depth]
  | .BooleanLiteral _ _ => by simp [eraseIds, depth]
  | .StringLiteral _ _ => by simp [eraseIds, depth]
  | .TimeLiteral _ _ => by simp [eraseIds, depth]
theorem depthOperand_eraseIds :
    ∀ o : Option Expr, depthOperand (eraseIdsOperand o) = depthOperand o
  | none => by simp [eraseIdsOperand, depthOperand]
  | some e => by simp [eraseIdsOperand, depthOperand, depth_eraseIds e]
theorem depthChildren_eraseIds :
    ∀ cs : List (Option Expr), depthChildren (eraseIdsChildren cs) = depthChildren cs
  | [] => by simp [eraseIdsChildren, depthChildren]
  | child :: rest => by
    simp [eraseIdsChildren, depthChildren, depthOperand_eraseIds child,
      depthChildren_eraseIds rest]
end

/-! ### Numbers in fixed-point notation -/

theorem digitByte_isDigit (k : Nat) (h : k < 10) : (digitByte k).isDigit = true := by
  interval_cases k <;> decide

theorem utoaLoop_all_digits :
    ∀ (fuel u : Nat) (buf : List Char), u ≤ fuel →
      (∀ c ∈ buf, c.isDigit = true) → ∀ c ∈ utoaLoop fuel u buf, c.isDigit = true
  | 0, u, buf, hu, hbuf => by
    have h0 : u = 0 := by omega
    subst h0
    intro c hc
    simp only [utoaLoop, List.mem_cons] at hc
    rcases hc with hc | hc
    · rw [hc]
      exact digitByte_isDigit 0 (by omega)
    · exact hbuf c hc
  | fuel + 1, u, buf, hu, hbuf => by
    intro c hc
    by_cases h10 : u ≥ 10
    · rw [utoaLoop_step fuel u buf h10] at hc
      refine utoaLoop_all_digits fuel (u / 10) _ (by omega) ?_ c hc
      intro c2 hc2
      simp only [List.mem_cons] at hc2
      rcases hc2 with hc2 | hc2
      · rw [hc2]
        exact digitByte_isDigit _ (by omega)
      · exact hbuf c2 hc2
    · rw [utoaLoop_small (fuel + 1) u buf (by omega)] at hc
      simp only [List.mem_cons] at hc
      rcases hc with hc | hc
      · rw [hc]
        exact digitByte_isDigit u (by omega)
      · exact hbuf c hc

theorem utoaLoop_ne_nil : ∀ (fuel u : Nat) (buf : List Char), utoaLoop fuel u buf ≠ []
  | 0, _, _ => by simp [utoaLoop]
  | fuel + 1, u, buf => by
    by_cases h10 : u ≥ 10
    · rw [utoaLoop_step fuel u buf h10]
      exact utoaLoop_ne_nil fuel _ _
    · rw [utoaLoop_small (fuel + 1) u buf (by omega)]
      simp

theorem decimalText_all_digits (n : Nat) : ∀ c ∈ decimalText n, c.isDigit = true :=
  utoaLoop_all_digits n n [] (Nat.le_refl n) (by simp)

theorem decimalText_ne_nil (n : Nat) : decimalText n ≠ [] := utoaLoop_ne_nil n n []

theorem fracDigits_three (r : Nat) :
    fracDigits 3 r = [digitByte (r / 100 % 10), digitByte (r / 10 % 10), digitByte (r % 10)] := by
  simp [fracDigits]

/-- A `-` or nothing, then digits, a `.` and three digits, has the shape
`isFixed3` asks for. -/
theorem isFixed3_of_parts (neg : Bool) (ds : List Char) (a b c : Char)
    (hds : ∀ x ∈ ds, x.isDigit = true) (hne : ds ≠ [])
    (ha : a.isDigit = true) (hb : b.isDigit = true) (hc : c.isDigit = true) :
    isFixed3 (String.mk ((if neg then ['-'] else []) ++ ds ++ '.' :: [a, b, c])) = true := by
  have hbody : ∀ body : List Char, body = ds ++ '.' :: [a, b, c] →
      (match body.reverse with
        | d3 :: d2 :: d1 :: '.' :: intPart =>
          d1.isDigit && d2.isDigit && d3.isDigit && !intPart.isEmpty
            && intPart.all Char.isDigit
        | _ => false) = true := by
    intro body hb2
    subst hb2
    have hrev : (ds ++ '.' :: [a, b, c]).reverse = c :: b :: a :: '.' :: ds.reverse := by
      simp
    rw [hrev]
    simp only [ha, hb, hc, Bool.and_self, Bool.true_and, Bool.and_eq_true,
      Bool.not_eq_true', List.isEmpty_eq_false, List.all_eq_true]
    refine ⟨?_, ?_⟩
    · simpa using hne
    · intro x hx
      exact hds x (List.mem_reverse.mp hx)
  cases neg with
  | true =>
    unfold isFixed3
    simp only [if_true, List.append_assoc, List.singleton_append, stripMinus]
    exact hbody _ rfl
  | false =>
    cases ds with
    | nil => exact absurd rfl hne
    | cons d ds2 =>
      have hd : d ≠ '-' := by
        intro h
        have := hds d (by simp)
        rw [h] at this
        exact absurd this (by decide)
      have hstrip : stripMinus (d :: (ds2 ++ '.' :: [a, b, c]))
          = d :: (ds2 ++ '.' :: [a, b, c]) := by
        unfold stripMinus
        split
        · rename_i rest heq
          simp only [List.cons.injEq] at heq
          exact absurd heq.1 hd
        · rfl
      unfold isFixed3
      simp only [Bool.false_eq_true, if_false, List.nil_append, List.cons_append, hstrip]
      exact hbody _ rfl

theorem roundHalfEven_near (num den : Nat) (hden : 0 < den) :
    2 * (roundHalfEven num den * den) ≤ 2 * num + den
    ∧ 2 * num ≤ 2 * (roundHalfEven num den * den) + den := by
  have hdm := Nat.div_add_mod num den
  have hlt := Nat.mod_lt num hden
  have hmul : (num / den + 1) * den = den * (num / den) + den := by ring
  have hmul2 : num / den * den = den * (num / den) := by ring
  unfold roundHalfEven
  simp only []
  split
  · rw [hmul2]
    omega
  · split
    · rw [hmul]
      omega
    · split
      · rw [hmul2]
        omega
      · rw [hmul]
        omega

theorem float64Den_pos (bits : Float64) : 0 < float64Den bits := by
  unfold float64Den
  positivity

theorem formatFloatF_finite (bits : Float64) (h : bits / 2 ^ 52 % 2 ^ 11 ≠ 2047) :
    FormatFloatF bits 3
      = String.mk ((if bits / 2 ^ 63 != 0 then ['-'] else [])
          ++ decimalText (roundHalfEven (float64Num bits * 1000) (float64Den bits) / 1000)
          ++ '.' :: fracDigits 3
              (roundHalfEven (float64Num bits * 1000) (float64Den bits) % 1000)) := by
  have h2 : ¬ (bits / 4503599627370496 % 2048 = 2047) := by
    simpa using h
  unfold FormatFloatF
  simp
  intro h3
  exact absurd h3 h2

/-! ### Rendering over interface values -/

/-- On the tree model `String()` never fails: run with a bound on the depth of
nested calls, it returns the text of `Expr.String` as soon as the bound reaches
the depth of the tree. -/
theorem stringWithin_depth_add (env : Externals) (e : Expr) (extra : Nat) :
    stringWithin env (depth e + extra) e = some (e.String env) := by
  exact stringWithin_of_depth_le env (depth e + extra) e (Nat.le_add_right _ _)

theorem depth_pos (e : Expr) : 0 < depth e := by
  cases e <;> simp [depth]

theorem toOperand_of_isNil (v : Value) (h : v.isNil = true) : toOperand v = none := by
  cases v <;> simp [Value.isNil] at h
  simp [toOperand]

theorem toOperand_of_live (v : Value) (hnode : v.isNil = false)
    (hlive : noNilPointer v = true) : ∃ e, toOperand v = some e := by
  cases v <;> simp [Value.isNil, noNilPointer, toOperand] at *

mutual
/-- A value without nil pointers that stands for the tree `e` renders, within a
depth bound no smaller than the depth of `e`, as the text of `e`. -/
theorem callString_of_live (env : Externals) :
    ∀ (fuel : Nat) (v : Value) (e : Expr), noNilPointer v = true →
      toOperand v = some e → depth e ≤ fuel →
      callString env fuel v = .text (e.String env)
  | 0, _, e, _, _, hd => by
    have := depth_pos e
    omega
  | _ + 1, .nil, _, _, he, _ => by simp [toOperand] at he
  | _ + 1, .nilPtr _, _, _, he, _ => by simp [toOperand] at he
  | fuel + 1, .GroupExpr _ children, e, hlive, he, hd => by
    simp only [noNilPointer] at hlive
    simp only [toOperand, Option.some.injEq] at he
    subst he
    simp only [depth, Nat.add_le_add_iff_right] at hd
    simp [callString, Expr.String, callChildren_of_live env fuel children "" hlive hd]
  | fuel + 1, .BinaryExpr _ _ lhs rhs, e, hlive, he, hd => by
    simp only [noNilPointer, Bool.and_eq_true] at hlive
    simp only [toOperand, Option.some.injEq] at he
    subst he
    simp only [depth, Nat.add_le_add_iff_right, Nat.max_le] at hd
    cases hl : lhs.isNil
    · obtain ⟨el, hel⟩ := toOperand_of_live lhs hl hlive.1
      cases hr : rhs.isNil
      · obtain ⟨er, her⟩ := toOperand_of_live rhs hr hlive.2
        rw [hel, her] at hd
        simp only [depthOperand] at hd
        simp [callString, hl, hr, hel, her, Outcome.andThen, Expr.String,
          callString_of_live env fuel lhs el hlive.1 hel hd.1,
          callString_of_live env fuel rhs er hlive.2 her hd.2]
      · simp [callString, hl, hr, hel, toOperand_of_isNil rhs hr, Expr.String]
    · simp [callString, hl, toOperand_of_isNil lhs hl, Expr.String]
  | fuel + 1, .UniaryExpr _ _ lhs, e, hlive, he, hd => by
    simp only [noNilPointer] at hlive
    simp only [toOperand, Option.some.injEq] at he
    subst he
    simp only [depth, Nat.add_le_add_iff_right] at hd
    cases hl : lhs.isNil
    · obtain ⟨el, hel⟩ := toOperand_of_live lhs hl hlive
      rw [hel] at hd
      simp only [depthOperand] at hd
      simp [callString, hl, hel, Outcome.andThen, Expr.String,
        callString_of_live env fuel lhs el hlive hel hd]
    · simp [callString, hl, toOperand_of_isNil lhs hl, Expr.String]
  | fuel + 1, .TerniaryExpr _ _ lhs rhs rhs2, e, hlive, he, hd => by
    simp only [noNilPointer, Bool.and_eq_true] at hlive
    simp only [toOperand, Option.some.injEq] at he
    subst he
    simp only [depth, Nat.add_le_add_iff_right, Nat.max_le] at hd
    cases hl : lhs.isNil
    · obtain ⟨el, hel⟩ := toOperand_of_live lhs hl hlive.1.1
      cases hr : rhs.isNil
      · obtain ⟨er, her⟩ := toOperand_of_live rhs hr hlive.1.2
        cases hr2 : rhs2.isNil
        · obtain ⟨er2, her2⟩ := toOperand_of_live rhs2 hr2 hlive.2
          rw [hel, her, her2] at hd
          simp only [depthOperand] at hd
          simp [callString, hl, hr, hr2, hel, her, her2, Outcome.andThen, Expr.String,
            callString_of_live env fuel lhs el hlive.1.1 hel hd.1,
            callString_of_live env fuel rhs er hlive.1.2 her hd.2.1,
            callString_of_live env fuel rhs2 er2 hlive.2 her2 hd.2.2]
        · simp [callString, hl, hr, hr2, hel, her, toOperand_of_isNil rhs2 hr2,
            Expr.String]
      · simp [callString, hl, hr, hel, toOperand_of_isNil rhs hr, Expr.String]
    · simp [callString, hl, toOperand_of_isNil lhs hl, Expr.String]
  | _ + 1, .VarRef _ _, e, _, he, _ => by
    simp only [toOperand, Option.some.injEq] at he
    subst he
    simp [callString, Expr.String]
  | _ + 1, .NumberLiteral _ _, e, _, he, _ => by
    simp only [toOperand, Option.some.injEq] at he
    subst he
    simp [callString, Expr.String]
  | _ + 1, .BooleanLiteral _ _, e, _, he, _ => by
    simp only [toOperand, Option.some.injEq] at he
    subst he
    simp [callString, Expr.String]
  | _ + 1, .StringLiteral _ _, e, _, he, _ => by
    simp only [toOperand, Option.some.injEq] at he
    subst he
    simp [callString, Expr.String]
  | _ + 1, .TimeLiteral _ _, e, _, he, _ => by
    simp only [toOperand, Option.some.injEq] at he
    subst he
    simp [callString, Expr.String]
/-- The loop over children without nil pointers gives the text of the loop of
`GroupExpr.String` over the children they stand for. -/
theorem callChildren_of_live (env : Externals) :
    ∀ (fuel : Nat) (children : List Value) (str : String),
      noNilPointerList children = true → depthChildren (toChildren children) ≤ fuel →
      callChildren env fuel children str
        = .text (childrenLoop env (toChildren children) str)
  | _, [], _, _, _ => by simp [callChildren, toChildren, childrenLoop]
  | fuel, child :: rest, str, hlive, hd => by
    simp only [noNilPointerList, Bool.and_eq_true] at hlive
    simp only [toChildren, depthChildren, Nat.max_le] at hd
    cases hc : child.isNil
    · obtain ⟨ec, hec⟩ := toOperand_of_live child hc hlive.1
      rw [hec] at hd
      simp only [depthOperand] at hd
      simp [callChildren, hc, toChildren, hec, childrenLoop, Outcome.andThen,
        callString_of_live env fuel child ec hlive.1 hec hd.1,
        callChildren_of_live env fuel rest _ hlive.2 hd.2]
    · simp [callChildren, hc, toChildren, toOperand_of_isNil child hc, childrenLoop,
        callChildren_of_live env fuel rest str hlive.2 hd.2]
end

/-! ## The claims -/

/-- C1: a BinaryExpr with both operands present renders as the left operand's
text, one space, the operator's text, one space, and the right operand's text,
and nothing else. -/
theorem binaryExpr_string_present (env : Externals) (id : String) (op : Token)
    (lhs rhs : Expr) :
    (Expr.BinaryExpr id op (some lhs) (some rhs)).String env
      = lhs.String env ++ " " ++ env.tokenString op ++ " " ++ rhs.String env := by
  simp [Expr.String]

/-- C2: a BinaryExpr, UniaryExpr or TerniaryExpr with any one operand field nil
renders as the empty string, whatever the operator and the other operands. -/
theorem operator_string_absent (env : Externals) (id : String) (op : Token)
    (a b : Option Expr) :
    (Expr.BinaryExpr id op none a).String env = ""
    ∧ (Expr.BinaryExpr id op a none).String env = ""
    ∧ (Expr.UniaryExpr id op none).String env = ""
    ∧ (Expr.TerniaryExpr id op none a b).String env = ""
    ∧ (Expr.TerniaryExpr id op a none b).String env = ""
    ∧ (Expr.TerniaryExpr id op a b none).String env = "" := by
  refine ⟨?_, ?_, ?_, ?_, ?_, ?_⟩
  · simp [Expr.String]
  · cases a <;> simp [Expr.String]
  · simp [Expr.String]
  · simp [Expr.String]
  · cases a <;> simp [Expr.String]
  · cases a <;> cases b <;> simp [Expr.String]

/-- C3: a GroupExpr renders as the concatenation, in list order, of the
renderings of its non-nil children, with nothing in between; in particular
`[A, nil, B]` renders as A's text followed by B's, and a Group with no children
or only nil children renders as the empty string. -/
theorem groupExpr_string (env : Externals) (id : String)
    (children : List (Option Expr)) (a b : Expr) (n : Nat) :
    (Expr.GroupExpr id children).String env = concatPresent env children
    ∧ (Expr.GroupExpr id [some a, none, some b]).String env
        = a.String env ++ b.String env
    ∧ (Expr.GroupExpr id []).String env = ""
    ∧ (Expr.GroupExpr id (List.replicate n none)).String env = "" := by
  have h : ∀ cs, (Expr.GroupExpr id cs).String env = concatPresent env cs := by
    intro cs
    simp [Expr.String, childrenLoop_eq]
  refine ⟨h children, ?_, ?_, ?_⟩
  · rw [h, concatPresent_some, concatPresent_none, concatPresent_some,
      concatPresent_nil]
    simp
  · rw [h, concatPresent_nil]
  · rw [h, concatPresent_replicate_none]

/-- C4: a TerniaryExpr with all three operands present renders as the first
operand, a space, the operator, a space, the second operand, a space and the
third operand: the operator appears once, between the first two. -/
theorem terniaryExpr_string_present (env : Externals) (id : String) (op : Token)
    (lhs rhs rhs2 : Expr) :
    (Expr.TerniaryExpr id op (some lhs) (some rhs) (some rhs2)).String env
      = lhs.String env ++ " " ++ env.tokenString op ++ " " ++ rhs.String env
          ++ " " ++ rhs2.String env := by
  simp [Expr.String]

/-- C5: a UniaryExpr whose operand is present renders as the operator's text,
one space, and the operand's text. -/
theorem uniaryExpr_string_present (env : Externals) (id : String) (op : Token)
    (lhs : Expr) :
    (Expr.UniaryExpr id op (some lhs)).String env
      = env.tokenString op ++ " " ++ lhs.String env := by
  simp [Expr.String]

/-- C6, as stated, fails: the instant 2021-01-02T03:04:05Z plus 250ms does not
render as "2021-01-02 03:04:05.250". -/
theorem timeLiteral_quarter_second_not_three_digits :
    (Expr.TimeLiteral "" ⟨1609556645, 250000000, utcLoc⟩).String sampleExternals
      ≠ "2021-01-02 03:04:05.250" := by
  decide

/-- C6, amended: a TimeLiteral whose instant is an exact second plus 250
milliseconds renders as the text of that exact second followed by ".25", the
fraction with its trailing zero removed; the instant 2021-01-02T03:04:05Z plus
250ms renders as "2021-01-02 03:04:05.25". -/
theorem timeLiteral_string_quarter_second (env : Externals) (id : String)
    (sec : Int) (loc : Location) :
    (Expr.TimeLiteral id ⟨sec, 250000000, loc⟩).String env
      = (Expr.TimeLiteral id ⟨sec, 0, loc⟩).String env ++ ".25"
    ∧ (Expr.TimeLiteral id ⟨1609556645, 250000000, loc⟩).String env
      = "2021-01-02 03:04:05.25" := by
  constructor
  · simp only [Expr.String, Time.Format, Time.UTC, formatNano_quarter, formatNano_zero]
    apply String.ext
    simp [String.data_append, Time.locabs]
  · have h : (Time.UTC ⟨1609556645, 250000000, loc⟩).Format
        = "2021-01-02 03:04:05.25" := by
      simp only [Time.UTC]
      decide
    simpa [Expr.String] using h

/-- C7, as stated, fails: the instant 10000-01-01T00:00:00Z falls on an exact
second boundary and renders as a text of 20 characters. -/
theorem timeLiteral_year_10000_not_19_chars :
    (⟨253402300800, 0, utcLoc⟩ : Time).nsec = 0
    ∧ (Expr.TimeLiteral "" ⟨253402300800, 0, utcLoc⟩).String sampleExternals
        = "10000-01-01 00:00:00"
    ∧ ((Expr.TimeLiteral "" ⟨253402300800, 0, utcLoc⟩).String sampleExternals).length
        ≠ 19 := by
  decide

/-- C7, amended: a TimeLiteral whose instant falls on an exact second boundary
and whose year in UTC is between 0 and 9999 renders as exactly the 19
characters "YYYY-MM-DD HH:MM:SS" of that instant in UTC, every field
zero-padded to its width, one space between date and time, with no fractional
part and no '.'. -/
theorem timeLiteral_string_exact_second (env : Externals) (id : String) (t : Time)
    (hns : t.nsec = 0) (hy0 : 0 ≤ (absDate t.sec).year)
    (hy1 : (absDate t.sec).year ≤ 9999) :
    (Expr.TimeLiteral id t).String env = String.mk (secondText t.sec)
    ∧ ((Expr.TimeLiteral id t).String env).length = 19
    ∧ '.' ∉ ((Expr.TimeLiteral id t).String env).data := by
  have h : (Expr.TimeLiteral id t).String env = String.mk (secondText t.sec) := by
    simp only [Expr.String]
    exact format_exact_second t hns hy0 hy1
  refine ⟨h, ?_, ?_⟩
  · rw [h]
    exact secondText_length t.sec
  · rw [h]
    exact secondText_no_dot t.sec hy1

/-- C7 at 2021-01-02T03:04:05Z: the rendering is "2021-01-02 03:04:05". -/
theorem timeLiteral_string_exact_second_witness :
    (Expr.TimeLiteral "t" ⟨1609556645, 0, utcLoc⟩).String sampleExternals
      = "2021-01-02 03:04:05" :=
  (timeLiteral_string_exact_second sampleExternals "t" ⟨1609556645, 0, utcLoc⟩
    rfl (by decide) (by decide)).1.trans (by decide)

/-- C8: the rendering of a TimeLiteral depends only on the instant, not on the
location the value carries: two TimeLiterals of the same instant render the
same text, which is the reading of that instant on the UTC wall clock. -/
theorem timeLiteral_string_zone_independent (env : Externals) (id1 id2 : String)
    (t1 t2 : Time) (hsec : t1.sec = t2.sec) (hnsec : t1.nsec = t2.nsec) :
    (Expr.TimeLiteral id1 t1).String env = (Expr.TimeLiteral id2 t2).String env
    ∧ (Expr.TimeLiteral id1 t1).String env
        = Time.Format ⟨t1.sec, t1.nsec, utcLoc⟩ := by
  simp [Expr.String, Time.UTC, hsec, hnsec]

/-- C8 at 2021-01-02T03:04:05.25Z, carried once with the offset +05:30 and once
with the offset -08:00. -/
theorem timeLiteral_string_zone_independent_witness :
    (Expr.TimeLiteral "a" ⟨1609556645, 250000000, ⟨"IST", fun _ => 19800⟩⟩).String
        sampleExternals
      = (Expr.TimeLiteral "b" ⟨1609556645, 250000000, ⟨"PST", fun _ => -28800⟩⟩).String
        sampleExternals
    ∧ (Expr.TimeLiteral "a" ⟨1609556645, 250000000, ⟨"IST", fun _ => 19800⟩⟩).String
        sampleExternals
      = Time.Format ⟨1609556645, 250000000, utcLoc⟩ :=
  timeLiteral_string_zone_independent sampleExternals "a" "b"
    ⟨1609556645, 250000000, ⟨"IST", fun _ => 19800⟩⟩
    ⟨1609556645, 250000000, ⟨"PST", fun _ => -28800⟩⟩ rfl rfl

/-- C9: the `Id` field is never rendered: two trees of the same shape, operators
and payloads, differing only in the `Id`s of their nodes at any depth, render
the same text. -/
theorem string_ignores_ids (env : Externals) (e1 e2 : Expr)
    (h : eraseIds e1 = eraseIds e2) : e1.String env = e2.String env := by
  rw [← string_eraseIds env e1, ← string_eraseIds env e2, h]

/-- C9 on a Binary over a name and a Group, with two different sets of `Id`s. -/
theorem string_ignores_ids_witness :
    (Expr.BinaryExpr "n1" 34 (some (.VarRef "n2" "foo"))
        (some (.GroupExpr "n3" [some (.BooleanLiteral "n4" true), none]))).String
        sampleExternals
      = (Expr.BinaryExpr "m1" 34 (some (.VarRef "" "foo"))
        (some (.GroupExpr "m3" [some (.BooleanLiteral "m4" true), none]))).String
        sampleExternals :=
  string_ignores_ids sampleExternals _ _ rfl

/-- C10: `Args()` returns an empty sequence, of length 0, for every node of
every one of the nine variants. -/
theorem args_empty (e : Expr) : e.Args = [] ∧ e.Args.length = 0 := by
  cases e <;> simp [Expr.Args]

/-- C11, as stated, fails: a NumberLiteral whose value is NaN renders as "NaN",
which is not a number in fixed-point notation with three decimals. -/
theorem numberLiteral_nan_not_fixed :
    (Expr.NumberLiteral "" 0x7FF8000000000001).String modelExternals = "NaN"
    ∧ isFixed3 ((Expr.NumberLiteral "" 0x7FF8000000000001).String modelExternals)
        = false := by
  decide

/-- C11, amended: a NumberLiteral whose value is finite (neither NaN nor an
infinity) renders in fixed-point notation with exactly three digits after the
decimal point: an optional `-`, the integer digits, a `.` and three digits,
which read as the number of thousandths nearest to the value; 3.0 renders as
"3.000" and -2.5 as "-2.500". -/
theorem numberLiteral_string_finite (env : Externals) (id : String) (val : Float64)
    (henv : ∀ v, env.FormatFloat v 'f' 3 64 = FormatFloatF v 3)
    (hfin : val / 2 ^ 52 % 2 ^ 11 ≠ 2047) :
    isFixed3 ((Expr.NumberLiteral id val).String env) = true
    ∧ (∃ n : Nat,
        2 * (n * float64Den val) ≤ 2 * (float64Num val * 1000) + float64Den val
        ∧ 2 * (float64Num val * 1000) ≤ 2 * (n * float64Den val) + float64Den val
        ∧ (Expr.NumberLiteral id val).String env
          = String.mk ((if val / 2 ^ 63 != 0 then ['-'] else [])
              ++ decimalText (n / 1000) ++ '.' :: fracDigits 3 (n % 1000)))
    ∧ (Expr.NumberLiteral id 0x4008000000000000).String env = "3.000"
    ∧ (Expr.NumberLiteral id 0xC004000000000000).String env = "-2.500" := by
  have hstr : ∀ v, (Expr.NumberLiteral id v).String env = FormatFloatF v 3 := by
    intro v
    simp only [Expr.String, henv]
  have hnear := roundHalfEven_near (float64Num val * 1000) (float64Den val)
    (float64Den_pos val)
  refine ⟨?_, ⟨_, hnear.1, hnear.2, ?_⟩, ?_, ?_⟩
  · rw [hstr, formatFloatF_finite val hfin, fracDigits_three]
    exact isFixed3_of_parts _ _ _ _ _ (decimalText_all_digits _) (decimalText_ne_nil _)
      (digitByte_isDigit _ (by omega)) (digitByte_isDigit _ (by omega))
      (digitByte_isDigit _ (by omega))
  · rw [hstr, formatFloatF_finite val hfin]
  · rw [hstr]
    decide
  · rw [hstr]
    decide

/-- C11 at 3.0, with the number formatting of `strconv`. -/
theorem numberLiteral_string_finite_witness :
    (Expr.NumberLiteral "n" 0x4008000000000000).String modelExternals = "3.000"
    ∧ isFixed3 ((Expr.NumberLiteral "n" 0x4008000000000000).String modelExternals)
        = true :=
  ⟨(numberLiteral_string_finite modelExternals "n" 0x4008000000000000
      (fun _ => rfl) (by decide)).2.2.1,
    (numberLiteral_string_finite modelExternals "n" 0x4008000000000000
      (fun _ => rfl) (by decide)).1⟩

/-- C12: a BooleanLiteral renders as exactly "true" when its value is true and
exactly "false" when it is false. -/
theorem booleanLiteral_string (env : Externals) (id : String) :
    (Expr.BooleanLiteral id true).String env = "true"
    ∧ (Expr.BooleanLiteral id false).String env = "false" := by
  simp [Expr.String]

/-- C13: name and string leaves render by delegation to the quoting functions
on the payload alone: a VarRef renders as `QuoteIdent(Val)`, so that a valid
bare identifier, "foo" for one, renders unchanged; a StringLiteral renders as
`Quote(Val)`, so that its text always stands between string quote
characters. -/
theorem leaf_string_delegates (env : Externals) (g : Grammar) (id val : String)
    (hQuoteIdent : env.QuoteIdent = QuoteIdent g) (hQuote : env.Quote = Quote g)
    (hfoo : g.reserved "foo" = false) :
    (Expr.VarRef id val).String env = env.QuoteIdent val
    ∧ (isBareIdent g val = true → (Expr.VarRef id val).String env = val)
    ∧ (Expr.VarRef id "foo").String env = "foo"
    ∧ (Expr.StringLiteral id val).String env = env.Quote val
    ∧ (∃ body : List Char, (Expr.StringLiteral id val).String env
        = String.mk (g.stringQuote :: body ++ [g.stringQuote])) := by
  refine ⟨?_, ?_, ?_, ?_, ?_⟩
  · simp only [Expr.String]
  · intro hbare
    simp only [Expr.String, hQuoteIdent, QuoteIdent, hbare, if_true]
  · have hbare : isBareIdent g "foo" = true := by
      simp [isBareIdent, hfoo]
    simp only [Expr.String, hQuoteIdent, QuoteIdent, hbare, if_true]
  · simp only [Expr.String]
  · exact ⟨escapeChars g g.stringQuote true val.data, by
      simp only [Expr.String, hQuote, Quote]⟩

/-- C13 over the sample grammar: the name `foo` renders unchanged. -/
theorem leaf_string_delegates_witness :
    (Expr.VarRef "v" "foo").String modelExternals = "foo" :=
  (leaf_string_delegates modelExternals sampleGrammar "v" "foo" rfl rfl
    (by decide)).2.2.1

/-- C14, as stated, fails: a Binary whose left slot holds a nil `*GroupExpr`
passes the guard `!= nil` and panics in the call on that slot, at every depth
bound; so does a Group whose only child is a nil `*BooleanLiteral`. -/
theorem string_panics_on_nil_pointer :
    callString sampleExternals 2
        (Value.BinaryExpr "" 12 (.nilPtr .GroupExpr) (.VarRef "" "x")) = .panic
    ∧ callString sampleExternals 2 (Value.GroupExpr "" [.nilPtr .BooleanLiteral])
        = .panic
    ∧ (∀ (fuel : Nat) (s : String), callString sampleExternals fuel
        (Value.BinaryExpr "" 12 (.nilPtr .GroupExpr) (.VarRef "" "x")) ≠ .text s) := by
  refine ⟨by decide, by decide, ?_⟩
  intro fuel s
  match fuel with
  | 0 => simp [callString]
  | 1 => simp [callString, Value.isNil, Outcome.andThen]
  | _ + 2 => simp [callString, Value.isNil, Outcome.andThen]

/-- C14, amended: on every finite tree in which every slot is either nil or
points to a node (no slot holds a nil pointer of a variant type), `String()`
ends and returns a text without failing, whatever operands and children are
nil and whatever Groups are empty: run with a bound on the depth of nested
calls that reaches the depth of the tree, it returns the text of the tree. -/
theorem string_total_of_live (env : Externals) (v : Value) (extra : Nat)
    (hnode : v.isNil = false) (hlive : noNilPointer v = true) :
    ∃ e : Expr, toOperand v = some e
      ∧ callString env (depth e + extra) v = .text (e.String env) := by
  obtain ⟨e, he⟩ := toOperand_of_live v hnode hlive
  exact ⟨e, he, callString_of_live env (depth e + extra) v e hlive he
    (Nat.le_add_right _ _)⟩

/-- C14 on a Group with a Binary that lacks an operand, a nil child and an
empty Group. -/
theorem string_total_of_live_witness :
    (∃ e : Expr,
      toOperand (Value.GroupExpr "g" [.BinaryExpr "b" 12 .nil (.VarRef "" "x"), .nil,
          .UniaryExpr "u" 43 (.VarRef "" "y"), .GroupExpr "" []]) = some e
      ∧ callString sampleExternals (depth e + 0)
          (Value.GroupExpr "g" [.BinaryExpr "b" 12 .nil (.VarRef "" "x"), .nil,
            .UniaryExpr "u" 43 (.VarRef "" "y"), .GroupExpr "" []])
        = .text (e.String sampleExternals))
    ∧ callString sampleExternals 3
        (Value.GroupExpr "g" [.BinaryExpr "b" 12 .nil (.VarRef "" "x"), .nil,
          .UniaryExpr "u" 43 (.VarRef "" "y"), .GroupExpr "" []])
      = .text "token(43) y" :=
  ⟨string_total_of_live sampleExternals _ 0 rfl rfl, by decide⟩

/-- C15: a Group is transparent in its output: a Group whose only child is `e`
renders as `e` does, the Group over `xs ++ ys` renders as the Group over `xs`
followed by the Group over `ys`, and putting a run of children into a Group of
their own, or taking them out of it, leaves the text as it is. -/
theorem groupExpr_transparent (env : Externals) (id id1 id2 : String) (e : Expr)
    (xs ys zs : List (Option Expr)) :
    (Expr.GroupExpr id [some e]).String env = e.String env
    ∧ (Expr.GroupExpr id (xs ++ ys)).String env
        = (Expr.GroupExpr id1 xs).String env ++ (Expr.GroupExpr id2 ys).String env
    ∧ (Expr.GroupExpr id (xs ++ some (Expr.GroupExpr id1 ys) :: zs)).String env
        = (Expr.GroupExpr id (xs ++ ys ++ zs)).String env := by
  refine ⟨?_, ?_, ?_⟩
  · rw [groupExpr_string_eq, concatPresent_some, concatPresent_nil]
    apply String.ext
    simp [String.data_append]
  · rw [groupExpr_string_eq, groupExpr_string_eq, groupExpr_string_eq,
      concatPresent_append]
  · rw [groupExpr_string_eq, groupExpr_string_eq, concatPresent_append,
      concatPresent_some, groupExpr_string_eq, concatPresent_append,
      concatPresent_append, string_append_assoc]

/-- C16: an operator node renders as the empty string exactly when one of its
own operand fields is nil; with all operands present the text is not empty,
even when every operand renders as the empty string: a Binary over two empty
Groups renders as a space, the operator and a space. -/
theorem operator_string_empty_iff (env : Externals) (id id1 id2 : String)
    (op : Token) (lhs rhs rhs2 : Option Expr) :
    ((Expr.BinaryExpr id op lhs rhs).String env = "" ↔ lhs = none ∨ rhs = none)
    ∧ ((Expr.UniaryExpr id op lhs).String env = "" ↔ lhs = none)
    ∧ ((Expr.TerniaryExpr id op lhs rhs rhs2).String env = ""
        ↔ lhs = none ∨ rhs = none ∨ rhs2 = none)
    ∧ (Expr.BinaryExpr id op (some (Expr.GroupExpr id1 []))
          (some (Expr.GroupExpr id2 []))).String env
        = " " ++ env.tokenString op ++ " " := by
  refine ⟨?_, ?_, ?_, ?_⟩
  · cases lhs <;> cases rhs <;>
      simp [Expr.String, append_space_append_ne_empty]
  · cases lhs <;> simp [Expr.String, append_space_append_ne_empty]
  · cases lhs <;> cases rhs <;> cases rhs2 <;>
      simp [Expr.String, append_space_append_ne_empty]
  · simp only [Expr.String, childrenLoop]
    apply String.ext
    simp [String.data_append]

/-- C17: the rendering does not record how binary operations nest: the
left-nested tree `(a op1 b) op2 c` and the right-nested tree `a op1 (b op2 c)`
render as the same text `a op1 b op2 c`, though the two trees differ in more
than their `Id`s; so `String()` is not injective on trees, even up to `Id`. -/
theorem binaryExpr_nesting_not_recorded (env : Externals) (i1 i2 i3 i4 : String)
    (op1 op2 : Token) (a b c : Expr) :
    (Expr.BinaryExpr i1 op2 (some (Expr.BinaryExpr i2 op1 (some a) (some b)))
        (some c)).String env
      = (Expr.BinaryExpr i3 op1 (some a)
          (some (Expr.BinaryExpr i4 op2 (some b) (some c)))).String env
    ∧ (Expr.BinaryExpr i1 op2 (some (Expr.BinaryExpr i2 op1 (some a) (some b)))
        (some c)).String env
      = a.String env ++ " " ++ env.tokenString op1 ++ " " ++ b.String env ++ " "
          ++ env.tokenString op2 ++ " " ++ c.String env
    ∧ eraseIds (Expr.BinaryExpr i1 op2 (some (Expr.BinaryExpr i2 op1 (some a) (some b)))
        (some c))
      ≠ eraseIds (Expr.BinaryExpr i3 op1 (some a)
          (some (Expr.BinaryExpr i4 op2 (some b) (some c))))
    ∧ ¬ (∀ e1 e2 : Expr, e1.String env = e2.String env → eraseIds e1 = eraseIds e2) := by
  have hne : eraseIds (Expr.BinaryExpr i1 op2
        (some (Expr.BinaryExpr i2 op1 (some a) (some b))) (some c))
      ≠ eraseIds (Expr.BinaryExpr i3 op1 (some a)
          (some (Expr.BinaryExpr i4 op2 (some b) (some c)))) := by
    intro h
    simp only [eraseIds, eraseIdsOperand, Expr.BinaryExpr.injEq, Option.some.injEq,
      true_and] at h
    have hd := congrArg depth h.2.1
    have ha := depth_eraseIds a
    have hb := depth_eraseIds b
    simp only [depth, depthOperand] at hd
    omega
  have heq : (Expr.BinaryExpr i1 op2 (some (Expr.BinaryExpr i2 op1 (some a) (some b)))
        (some c)).String env
      = (Expr.BinaryExpr i3 op1 (some a)
          (some (Expr.BinaryExpr i4 op2 (some b) (some c)))).String env := by
    simp only [Expr.String]
    apply String.ext
    simp [String.data_append]
  refine ⟨heq, ?_, hne, fun hinj => hne (hinj _ _ heq)⟩
  simp only [Expr.String]

end Ast
